import Mathlib

/-!
Verification development for the chat-app WebSocket connection hub
(`internal/chat/websocket.go`).  The hub registry, the room subscription
index, the broadcast router and the per-connection outbound buffers are
embedded shallowly: Go maps become association lists over `Nat` keys,
channel contents become lists, and each hub operation becomes a pure
function on the `Hub` state.  UUIDs and opaque payloads are abstracted
to `Nat`; timestamps, sockets and log output carry no registry
information and are omitted.
-/

namespace ChatHub

/-- User ids (`uuid.UUID` in the source) are abstracted to naturals. -/
abbrev UserId := Nat

/-- Connection ids (the `WSClient.ID` string) are abstracted to naturals. -/
abbrev ConnId := Nat

/-- Chat room ids (`uuid.UUID`) are abstracted to naturals; `0` plays the
role of `uuid.Nil`. -/
abbrev RoomId := Nat

/-- Lookup in an association list, modelling Go map indexing. -/
def alGet (k : Nat) : List (Nat × α) → Option α
  | [] => none
  | e :: rest => if e.1 = k then some e.2 else alGet k rest

/-- Remove a key, modelling Go `delete(m, k)`. -/
def alRemove (k : Nat) (m : List (Nat × α)) : List (Nat × α) :=
  m.filter (fun e => e.1 != k)

/-- Update a key, modelling Go `m[k] = v`. -/
def alSet (k : Nat) (v : α) (m : List (Nat × α)) : List (Nat × α) :=
  (k, v) :: alRemove k m

/-- Insert into a key set, modelling Go `m[k] = struct` on a map used as a
set: a present key is left alone, an absent key is added. -/
def insertKey (k : Nat) (l : List Nat) : List Nat :=
  if k ∈ l then l else l ++ [k]

/-- The WebSocket message tags of `WSMessageType` (models.go:121-131). -/
inductive WSMessageType where
  | messageReceived
  | messageSent
  | typingStart
  | typingStop
  | userOnline
  | userOffline
  | messageRead
deriving DecidableEq

/-- `WSMessage` (models.go:133): the routed event.  The `Content`,
`MessageID` and `Timestamp` fields are opaque to the router and are
collapsed into a single `payload` tag. -/
structure WSMessage where
  type : WSMessageType
  chatID : RoomId
  userID : UserId
  payload : Nat
deriving DecidableEq

/-- The registry-relevant identity of a `WSClient` (websocket.go:30): its
connection id and owning user id.  The socket handle, username snapshot
and timestamps play no part in the hub registry logic. -/
structure WSClient where
  id : ConnId
  userID : UserId
deriving DecidableEq

/-- Capacity of a client's `Send` channel: `make(chan WSMessage, 256)`
(websocket.go:117). -/
def sendCap : Nat := 256

/-- The hub state (`WSHub`, websocket.go:46), together with the pieces of
per-connection state the hub mutates:

* `clients` — the by-user index `map[uuid.UUID]map[string]*WSClient`;
  each user maps to the set of their connection ids.
* `chatRooms` — the by-room index
  `map[uuid.UUID]map[uuid.UUID]map[string]*WSClient`.
* `connRooms` — each client's own `ChatRooms map[uuid.UUID]bool`
  tracking set, keyed here by connection id.
* `buffers` — the pending contents of each client's `Send` channel.
* `closed` — one entry per `close(client.Send)` call performed (Go
  panics when the same channel is closed twice).
* `broadcastQ` — the pending contents of the hub's `broadcast` channel.
* `published` — events published by the hub to the shared Redis pub/sub
  channel.  The source contains no publish call at all (`RedisSubscriber`
  at websocket.go:469 only subscribes), so no operation appends here. -/
structure Hub where
  clients : List (UserId × List ConnId)
  chatRooms : List (RoomId × List (UserId × List ConnId))
  connRooms : List (ConnId × List RoomId)
  buffers : List (ConnId × List WSMessage)
  closed : List ConnId
  broadcastQ : List WSMessage
  published : List WSMessage
deriving DecidableEq

/-- `NewWSHub` (websocket.go:66): all indices start empty. -/
def emptyHub : Hub :=
  { clients := [], chatRooms := [], connRooms := [], buffers := [],
    closed := [], broadcastQ := [], published := [] }

/-- The status event built by `broadcastUserStatus` (websocket.go:266);
its `ChatID` is left at `uuid.Nil`. -/
def statusMessage (u : UserId) (isOnline : Bool) : WSMessage :=
  { type := if isOnline then .userOnline else .userOffline,
    chatID := 0, userID := u, payload := 0 }

/-- `broadcastUserStatus` (websocket.go:266): constructs the status event
and sends it on the hub's `broadcast` channel. -/
def broadcastUserStatus (h : Hub) (u : UserId) (isOnline : Bool) : Hub :=
  { h with broadcastQ := h.broadcastQ ++ [statusMessage u isOnline] }

/-- `registerClient` (websocket.go:133): adds the client under its user id
in the by-user index (creating the inner map when absent), then emits the
online status event.  It touches neither the by-room index nor the
client's room tracking set. -/
def registerClient (h : Hub) (c : WSClient) : Hub :=
  let conns := (alGet c.userID h.clients).getD []
  let h' := { h with clients := alSet c.userID (insertKey c.id conns) h.clients }
  broadcastUserStatus h' c.userID true

/-- The inner body of the room-removal loops (websocket.go:166-173 and
317-323): delete the connection from the room's per-user set and prune
the user entry when it empties.  The room entry itself is never pruned
by the source, even when its user map empties. -/
def removeConnFromRoomUsers (uid : UserId) (cid : ConnId)
    (users : List (UserId × List ConnId)) : List (UserId × List ConnId) :=
  match alGet uid users with
  | none => users
  | some conns =>
    let conns' := conns.filter (fun x => x != cid)
    if conns' = [] then alRemove uid users else alSet uid conns' users

/-- Remove a connection from one room of the by-room index, when the room
entry exists. -/
def removeConnFromRoom (r : RoomId) (uid : UserId) (cid : ConnId)
    (rooms : List (RoomId × List (UserId × List ConnId))) :
    List (RoomId × List (UserId × List ConnId)) :=
  match alGet r rooms with
  | none => rooms
  | some users => alSet r (removeConnFromRoomUsers uid cid users) rooms

/-- `unregisterClient` (websocket.go:150): removes the client from the
by-user index (pruning the user entry and emitting the offline status
event when the entry empties), removes it from every room in its
tracking set, and unconditionally closes its `Send` channel — the
`closed` list gains an entry on every call, matching the unguarded
`close(client.Send)` at websocket.go:177. -/
def unregisterClient (h : Hub) (c : WSClient) : Hub :=
  let clientsAndOffline :=
    match alGet c.userID h.clients with
    | none => (h.clients, false)
    | some conns =>
      let conns' := conns.filter (fun x => x != c.id)
      if conns' = [] then (alRemove c.userID h.clients, true)
      else (alSet c.userID conns' h.clients, false)
  let rooms := (alGet c.id h.connRooms).getD []
  { h with clients := clientsAndOffline.1,
           chatRooms := rooms.foldl (fun cr r => removeConnFromRoom r c.userID c.id cr) h.chatRooms,
           closed := h.closed ++ [c.id],
           broadcastQ := h.broadcastQ ++
             (if clientsAndOffline.2 then [statusMessage c.userID false] else []) }

/-- `JoinChatRoom` (websocket.go:287): creates the room and per-user maps
on demand, adds the connection under its user in the room, and records
the room in the client's tracking set. -/
def JoinChatRoom (h : Hub) (c : WSClient) (r : RoomId) : Hub :=
  let users := (alGet r h.chatRooms).getD []
  let conns := (alGet c.userID users).getD []
  let users' := alSet c.userID (insertKey c.id conns) users
  let tracked := (alGet c.id h.connRooms).getD []
  { h with chatRooms := alSet r users' h.chatRooms,
           connRooms := alSet c.id (insertKey r tracked) h.connRooms }

/-- `LeaveChatRoom` (websocket.go:313): removes the connection from the
room (pruning the per-user entry when it empties, never the room entry)
and drops the room from the client's tracking set. -/
def LeaveChatRoom (h : Hub) (c : WSClient) (r : RoomId) : Hub :=
  let tracked := (alGet c.id h.connRooms).getD []
  { h with chatRooms := removeConnFromRoom r c.userID c.id h.chatRooms,
           connRooms := alSet c.id (tracked.filter (fun x => x != r)) h.connRooms }

/-- Contents of one connection's `Send` channel: a connection without a
buffer entry has an empty channel. -/
def bufGet (cid : ConnId) (bufs : List (ConnId × List WSMessage)) : List WSMessage :=
  (alGet cid bufs).getD []

/-- Deliver one event to a list of connections in order, modelling the
inner loop of `broadcastMessage` (websocket.go:194-201): a non-full
`Send` channel accepts the event; at the first full channel the source
executes `h.unregister <- client` — a send on the hub's unbuffered
`unregister` channel from inside the hub's own `Run` loop, the channel's
only receiver, which can never complete.  That stuck connection id is
returned as the error and no later connection is reached. -/
def sendToConns (msg : WSMessage) (conns : List ConnId)
    (bufs : List (ConnId × List WSMessage)) :
    Except ConnId (List (ConnId × List WSMessage)) :=
  match conns with
  | [] => .ok bufs
  | cid :: rest =>
    let q := bufGet cid bufs
    if q.length < sendCap then sendToConns msg rest (alSet cid (q ++ [msg]) bufs)
    else .error cid

/-- The per-room fan-out loop of `broadcastMessage` (websocket.go:192-203):
every user entry other than the originating user's receives the event on
each of its connections. -/
def sendToRoom (sender : UserId) (msg : WSMessage)
    (users : List (UserId × List ConnId))
    (bufs : List (ConnId × List WSMessage)) :
    Except ConnId (List (ConnId × List WSMessage)) :=
  match users with
  | [] => .ok bufs
  | (u, conns) :: rest =>
    if u = sender then sendToRoom sender msg rest bufs
    else
      match sendToConns msg conns bufs with
      | .ok bufs' => sendToRoom sender msg rest bufs'
      | .error cid => .error cid

/-- `broadcastToUserContacts` (websocket.go:335): the source body is an
unimplemented stub (a TODO comment); it performs no delivery and leaves
the hub unchanged. -/
def broadcastToUserContacts (h : Hub) (_u : UserId) (_msg : WSMessage) : Hub :=
  h

/-- The room-scoped delivery shared verbatim by the `WSMessageReceived`
and `WSTypingStart`/`WSTypingStop` cases of `broadcastMessage`
(websocket.go:189-204 and 210-224): look up the room and fan out to every
non-sender user entry; an absent room delivers nothing. -/
def broadcastToRoom (h : Hub) (msg : WSMessage) : Except ConnId Hub :=
  match alGet msg.chatID h.chatRooms with
  | none => .ok h
  | some users =>
    match sendToRoom msg.userID msg users h.buffers with
    | .ok bufs => .ok { h with buffers := bufs }
    | .error cid => .error cid

/-- `broadcastMessage` (websocket.go:184): dispatch on the event tag.
Room-scoped tags fan out to the room minus the sender; status tags go to
the contact stub; remaining tags have no case and deliver nothing.  The
error value reports the connection at which the source's broadcast
becomes stuck (see `sendToConns`). -/
def broadcastMessage (h : Hub) (msg : WSMessage) : Except ConnId Hub :=
  match msg.type with
  | .messageReceived => broadcastToRoom h msg
  | .userOnline => .ok (broadcastToUserContacts h msg.userID msg)
  | .userOffline => .ok (broadcastToUserContacts h msg.userID msg)
  | .typingStart => broadcastToRoom h msg
  | .typingStop => broadcastToRoom h msg
  | _ => .ok h

/-- One delivery of the Redis bridge listener `RedisSubscriber`
(websocket.go:469): a decoded payload from the shared channel is sent on
the hub's `broadcast` channel.  The listener never publishes. -/
def redisSubscriberStep (h : Hub) (msg : WSMessage) : Hub :=
  { h with broadcastQ := h.broadcastQ ++ [msg] }

/-- `IsUserOnline` (websocket.go:442): the user's entry exists in the
by-user index and is nonempty. -/
def IsUserOnline (h : Hub) (u : UserId) : Bool :=
  match alGet u h.clients with
  | some conns => !conns.isEmpty
  | none => false

/-- `GetConnectionCount` (websocket.go:451): total connections summed over
all user entries. -/
def GetConnectionCount (h : Hub) : Nat :=
  h.clients.foldl (fun n e => n + e.2.length) 0

/-- The registry mutations serialized through the hub (spec section 4.1):
register, unregister, join room, leave room. -/
inductive HubOp where
  | register (c : WSClient)
  | unregister (c : WSClient)
  | joinRoom (c : WSClient) (r : RoomId)
  | leaveRoom (c : WSClient) (r : RoomId)

/-- Apply one hub operation. -/
def applyOp (h : Hub) : HubOp → Hub
  | .register c => registerClient h c
  | .unregister c => unregisterClient h c
  | .joinRoom c r => JoinChatRoom h c r
  | .leaveRoom c r => LeaveChatRoom h c r

/-- Apply a sequence of hub operations in order. -/
def applyOps (h : Hub) (ops : List HubOp) : Hub :=
  ops.foldl applyOp h

/-- A client value is coherent with the registry when any by-user entry
holding its connection id is its own user's entry.  In the program each
socket gets one `WSClient` struct with a globally unique id, so every
call site satisfies this. -/
def coherentClient (h : Hub) (c : WSClient) : Prop :=
  ∀ e ∈ h.clients, c.id ∈ e.2 → e.1 = c.userID

/-- The client is currently registered under its user id. -/
def registeredClient (h : Hub) (c : WSClient) : Prop :=
  c.id ∈ (alGet c.userID h.clients).getD []

/-- The per-connection state machine of spec section 4.1: operations are
issued on live client structs (coherent ids), and a room join only
happens on a registered connection. -/
def ValidOp (h : Hub) : HubOp → Prop
  | .register c => coherentClient h c
  | .unregister c => coherentClient h c
  | .joinRoom c _ => coherentClient h c ∧ registeredClient h c
  | .leaveRoom c _ => coherentClient h c

/-- A sequence of operations each valid in the state it is applied to. -/
inductive ValidSeq : Hub → List HubOp → Prop where
  | nil (h : Hub) : ValidSeq h []
  | cons {h : Hub} {op : HubOp} {ops : List HubOp} :
      ValidOp h op → ValidSeq (applyOp h op) ops → ValidSeq h (op :: ops)

/-- Registry invariant, conjunct 1: every connection id appearing in the
by-room index also appears in the by-user index under the same user. -/
def InvRoomUser (h : Hub) : Prop :=
  ∀ r users, alGet r h.chatRooms = some users →
    ∀ u conns, alGet u users = some conns →
      ∀ cid, cid ∈ conns → ∃ uc, alGet u h.clients = some uc ∧ cid ∈ uc

/-- Registry invariant, conjunct 2 of the spec: a room entry with an
empty user set has been removed from the by-room index. -/
def InvRoomPruned (h : Hub) : Prop :=
  ∀ r users, alGet r h.chatRooms = some users → users ≠ []

/-- Registry invariant, conjunct 3: a by-user entry with an empty
connection set has been removed. -/
def InvUserPruned (h : Hub) : Prop :=
  ∀ u conns, alGet u h.clients = some conns → conns ≠ []

/-- Within every room entry, each per-user connection set is nonempty
(the loops at websocket.go:169 and 320 prune emptied user entries). -/
def InvRoomUserPruned (h : Hub) : Prop :=
  ∀ r users, alGet r h.chatRooms = some users →
    ∀ u conns, alGet u users = some conns → conns ≠ []

/-- The registry invariant exactly as claimed (spec section 3). -/
def RegistryInv (h : Hub) : Prop :=
  InvRoomUser h ∧ InvRoomPruned h ∧ InvUserPruned h

/-- The registry invariant the code actually maintains: as claimed, minus
the pruning of emptied room entries, which the source never performs. -/
def RegistryInvAmended (h : Hub) : Prop :=
  InvRoomUser h ∧ InvUserPruned h

/-- A connection id is registered under at most one user. -/
def UserUniq (h : Hub) : Prop :=
  ∀ u₁ u₂ l₁ l₂ cid, alGet u₁ h.clients = some l₁ → alGet u₂ h.clients = some l₂ →
    cid ∈ l₁ → cid ∈ l₂ → u₁ = u₂

/-- Every room occurrence of a connection id is recorded in that
connection's own tracking set. -/
def Tracked (h : Hub) : Prop :=
  ∀ r users, alGet r h.chatRooms = some users →
    ∀ u conns, alGet u users = some conns →
      ∀ cid, cid ∈ conns → r ∈ (alGet cid h.connRooms).getD []

/-- The inductive well-formedness maintained by all four operations. -/
def HubWF (h : Hub) : Prop :=
  InvRoomUser h ∧ InvRoomUserPruned h ∧ InvUserPruned h ∧ UserUniq h ∧ Tracked h

/-- A well-formed room entry: distinct user keys, nonempty duplicate-free
connection sets, and no connection id shared between different users. -/
def RoomWF (room : List (UserId × List ConnId)) : Prop :=
  (room.map Prod.fst).Nodup ∧
  (∀ e ∈ room, e.2 ≠ [] ∧ e.2.Nodup) ∧
  (∀ e₁ ∈ room, ∀ e₂ ∈ room, e₁.1 ≠ e₂.1 → ∀ x ∈ e₁.2, x ∉ e₂.2)

/-- How many copies of an event the room fan-out enqueues into a given
connection: one per occurrence of that id under a non-sender user. -/
def deliveredCount (sender : UserId) (cid : ConnId) :
    List (UserId × List ConnId) → Nat
  | [] => 0
  | (u, conns) :: rest =>
    (if u = sender then 0 else conns.count cid) + deliveredCount sender cid rest

/-- Event tags routed by the room fan-out of `broadcastMessage`. -/
def roomScoped : WSMessageType → Bool
  | .messageReceived => true
  | .typingStart => true
  | .typingStop => true
  | _ => false

instance (h : Hub) (c : WSClient) : Decidable (coherentClient h c) :=
  List.decidableBAll _ h.clients

instance (h : Hub) (c : WSClient) : Decidable (registeredClient h c) :=
  inferInstanceAs (Decidable (c.id ∈ (alGet c.userID h.clients).getD []))

instance (h : Hub) (op : HubOp) : Decidable (ValidOp h op) :=
  match op with
  | .register c => inferInstanceAs (Decidable (coherentClient h c))
  | .unregister c => inferInstanceAs (Decidable (coherentClient h c))
  | .joinRoom c _ => inferInstanceAs (Decidable (coherentClient h c ∧ registeredClient h c))
  | .leaveRoom c _ => inferInstanceAs (Decidable (coherentClient h c))

instance (room : List (UserId × List ConnId)) : Decidable (RoomWF room) :=
  inferInstanceAs (Decidable ((room.map Prod.fst).Nodup ∧
    (∀ e ∈ room, e.2 ≠ [] ∧ e.2.Nodup) ∧
    (∀ e₁ ∈ room, ∀ e₂ ∈ room, e₁.1 ≠ e₂.1 → ∀ x ∈ e₁.2, x ∉ e₂.2)))

/-- Concrete three-user room for exercising the message fan-out: users 1,
2, 3 with one connection each. -/
def w1Room : List (UserId × List ConnId) := [(1, [10]), (2, [20]), (3, [30])]

/-- Hub holding `w1Room` as room 1, all buffers empty. -/
def w1Hub : Hub := { emptyHub with chatRooms := [(1, w1Room)] }

/-- A chat message from user 1 into room 1. -/
def w1Msg : WSMessage :=
  { type := .messageReceived, chatID := 1, userID := 1, payload := 7 }

/-- The hub after broadcasting `w1Msg` on `w1Hub`. -/
def w1Hub' : Hub := ((broadcastMessage w1Hub w1Msg).toOption).getD emptyHub

/-- A single client used in the register/join/leave scenarios. -/
def c2Client : WSClient := { id := 10, userID := 1 }

/-- Register, join room 5, leave room 5: a valid sequence after which the
emptied room entry for room 5 lingers in the by-room index. -/
def c2Ops : List HubOp :=
  [HubOp.register c2Client, HubOp.joinRoom c2Client 5, HubOp.leaveRoom c2Client 5]

/-- The client for the double-unregister scenario. -/
def c3Client : WSClient := { id := 10, userID := 1 }

/-- State after registering and unregistering `c3Client` once. -/
def c3Once : Hub := unregisterClient (registerClient emptyHub c3Client) c3Client

/-- State after unregistering the already-removed `c3Client` a second
time. -/
def c3Twice : Hub := unregisterClient c3Once c3Client

/-- Hub in which user 1 holds two registered connections 10 and 11. -/
def w4Hub : Hub := { emptyHub with clients := [(1, [10, 11])] }

/-- Connection 10 of user 1, to be unregistered while 11 stays. -/
def w4Client : WSClient := { id := 10, userID := 1 }

/-- A stale event fills connection 20's buffer to capacity. -/
def c5Stale : WSMessage :=
  { type := .messageReceived, chatID := 1, userID := 9, payload := 0 }

/-- The broadcast event from user 1 into room 1. -/
def c5Msg : WSMessage :=
  { type := .messageReceived, chatID := 1, userID := 1, payload := 7 }

/-- Room 1 holds users 1 (sender), 2 and 3; connection 20 of user 2 has a
`Send` buffer filled to its capacity of 256. -/
def c5Hub : Hub :=
  { emptyHub with
    chatRooms := [(1, [(1, [10]), (2, [20]), (3, [30])])],
    buffers := [(20, List.replicate sendCap c5Stale)] }

/-- A chat message from user 1 into room 1 shared by users 1 and 2. -/
def c6Msg : WSMessage :=
  { type := .messageReceived, chatID := 1, userID := 1, payload := 5 }

/-- Hub with room 1 joined by users 1 and 2. -/
def c6Hub : Hub := { emptyHub with chatRooms := [(1, [(1, [10]), (2, [20])])] }

/-- The hub after broadcasting `c6Msg` on `c6Hub`. -/
def c6Hub' : Hub := ((broadcastMessage c6Hub c6Msg).toOption).getD emptyHub

/-- User 2 (a contact of user 1) registers connection 20, then user 1
registers connection 10. -/
def c7Hub : Hub :=
  registerClient (registerClient emptyHub { id := 20, userID := 2 }) { id := 10, userID := 1 }

/-- Two-user room for the ordering scenario. -/
def w8Room : List (UserId × List ConnId) := [(1, [10]), (2, [20])]

/-- Hub holding `w8Room` as room 4. -/
def w8Hub : Hub := { emptyHub with chatRooms := [(4, w8Room)] }

/-- Typing-start from user 1 in room 4. -/
def w8Start : WSMessage := { type := .typingStart, chatID := 4, userID := 1, payload := 0 }

/-- Typing-stop from user 1 in room 4. -/
def w8Stop : WSMessage := { type := .typingStop, chatID := 4, userID := 1, payload := 0 }

/-- Hub after broadcasting the typing-start. -/
def w8Hub1 : Hub := ((broadcastMessage w8Hub w8Start).toOption).getD emptyHub

/-- Hub after additionally broadcasting the typing-stop. -/
def w8Hub2 : Hub := ((broadcastMessage w8Hub1 w8Stop).toOption).getD emptyHub

/-- Hub with one registered user and one populated room for the frame
witness. -/
def w10Hub : Hub :=
  { emptyHub with clients := [(1, [10])], chatRooms := [(6, [(2, [20])])] }

/-- Fresh connection 10 of user 1 joining room 6 of `w10Hub`. -/
def w10Client : WSClient := { id := 10, userID := 1 }

theorem alGet_alRemove_self (k : Nat) (m : List (Nat × α)) :
    alGet k (alRemove k m) = none := by
  induction m with
  | nil => rfl
  | cons e rest ih =>
    simp only [alRemove, List.filter_cons] at ih ⊢
    by_cases hk : e.1 = k
    · simp [hk, ih]
    · simp [bne_iff_ne, hk, alGet, ih]

theorem alGet_alRemove_ne (hne : k' ≠ k) (m : List (Nat × α)) :
    alGet k' (alRemove k m) = alGet k' m := by
  induction m with
  | nil => rfl
  | cons e rest ih =>
    simp only [alRemove, List.filter_cons] at ih ⊢
    by_cases hk : e.1 = k
    · simp [hk, alGet, Ne.symm hne, ih]
    · simp [bne_iff_ne, hk, alGet, ih]

theorem alGet_alSet_self (k : Nat) (v : α) (m : List (Nat × α)) :
    alGet k (alSet k v m) = some v := by
  simp [alSet, alGet]

theorem alGet_alSet_ne (hne : k' ≠ k) (v : α) (m : List (Nat × α)) :
    alGet k' (alSet k v m) = alGet k' m := by
  have : k ≠ k' := fun hc => hne hc.symm
  simp [alSet, alGet, this, alGet_alRemove_ne hne]

theorem alGet_mem {m : List (Nat × α)} (h : alGet k m = some v) : (k, v) ∈ m := by
  induction m with
  | nil => simp [alGet] at h
  | cons e rest ih =>
    rw [alGet] at h
    by_cases hk : e.1 = k
    · rw [if_pos hk] at h
      obtain ⟨e1, e2⟩ := e
      simp only [Option.some.injEq] at h
      subst h
      subst hk
      exact List.mem_cons_self _ _
    · rw [if_neg hk] at h
      exact List.mem_cons_of_mem _ (ih h)

theorem mem_insertKey {x k : Nat} {l : List Nat} :
    x ∈ insertKey k l ↔ x = k ∨ x ∈ l := by
  by_cases hk : k ∈ l
  · simp only [insertKey, if_pos hk]
    constructor
    · exact Or.inr
    · rintro (rfl | hx)
      · exact hk
      · exact hx
  · simp [insertKey, if_neg hk, or_comm]

theorem insertKey_ne_nil (k : Nat) (l : List Nat) : insertKey k l ≠ [] := by
  by_cases hk : k ∈ l
  · simp only [insertKey, if_pos hk]
    exact List.ne_nil_of_mem hk
  · simp [insertKey, if_neg hk]

theorem mem_filter_ne {x k : Nat} {l : List Nat} :
    x ∈ l.filter (fun y => y != k) ↔ x ∈ l ∧ x ≠ k := by
  simp [List.mem_filter, bne_iff_ne]

theorem filter_ne_eq_nil_iff {k : Nat} {l : List Nat} :
    l.filter (fun y => y != k) = [] ↔ ∀ x ∈ l, x = k := by
  simp [List.filter_eq_nil_iff, bne_iff_ne]

theorem sendToConns_ok {msg : WSMessage} :
    ∀ (conns : List ConnId) (bufs bufs' : List (ConnId × List WSMessage)),
      sendToConns msg conns bufs = .ok bufs' →
      ∀ cid, bufGet cid bufs' = bufGet cid bufs ++ List.replicate (conns.count cid) msg := by
  intro conns
  induction conns with
  | nil =>
    intro bufs bufs' hok cid
    simp only [sendToConns, Except.ok.injEq] at hok
    subst hok
    simp
  | cons c0 rest ih =>
    intro bufs bufs' hok cid
    simp only [sendToConns] at hok
    by_cases hlt : (bufGet c0 bufs).length < sendCap
    · rw [if_pos hlt] at hok
      have hrec := ih _ _ hok cid
      by_cases hc : cid = c0
      · subst hc
        rw [hrec]
        have hset : bufGet cid (alSet cid (bufGet cid bufs ++ [msg]) bufs) =
            bufGet cid bufs ++ [msg] := by
          simp [bufGet, alGet_alSet_self]
        rw [hset, List.count_cons_self, List.append_assoc]
        congr 1
      · have hset : bufGet cid (alSet c0 (bufGet c0 bufs ++ [msg]) bufs) =
            bufGet cid bufs := by
          simp [bufGet, alGet_alSet_ne hc]
        rw [hrec, hset, List.count_cons_of_ne hc]
    · rw [if_neg hlt] at hok
      exact absurd hok (by simp)

theorem sendToRoom_ok {msg : WSMessage} {sender : UserId} :
    ∀ (users : List (UserId × List ConnId)) (bufs bufs' : List (ConnId × List WSMessage)),
      sendToRoom sender msg users bufs = .ok bufs' →
      ∀ cid, bufGet cid bufs' =
        bufGet cid bufs ++ List.replicate (deliveredCount sender cid users) msg := by
  intro users
  induction users with
  | nil =>
    intro bufs bufs' hok cid
    simp only [sendToRoom, Except.ok.injEq] at hok
    subst hok
    simp [deliveredCount]
  | cons e rest ih =>
    intro bufs bufs' hok cid
    obtain ⟨u, conns⟩ := e
    simp only [sendToRoom] at hok
    by_cases hu : u = sender
    · rw [if_pos hu] at hok
      rw [ih _ _ hok cid]
      simp [deliveredCount, hu]
    · rw [if_neg hu] at hok
      cases hsc : sendToConns msg conns bufs with
      | ok bufs1 =>
        rw [hsc] at hok
        rw [ih _ _ hok cid, sendToConns_ok conns bufs bufs1 hsc cid]
        rw [List.append_assoc]
        congr 1
        rw [deliveredCount, if_neg hu, List.replicate_add]
      | error c0 =>
        rw [hsc] at hok
        exact absurd hok (by simp)

theorem deliveredCount_eq_zero {sender : UserId} {cid : ConnId} :
    ∀ {room : List (UserId × List ConnId)}, (∀ e ∈ room, cid ∉ e.2) →
      deliveredCount sender cid room = 0 := by
  intro room
  induction room with
  | nil => intro _; rfl
  | cons e rest ih =>
    intro hall
    obtain ⟨u, conns⟩ := e
    rw [deliveredCount, ih (fun e he => hall e (List.mem_cons_of_mem _ he))]
    by_cases hu : u = sender
    · simp [hu]
    · rw [if_neg hu, List.count_eq_zero.mpr (hall (u, conns) (List.mem_cons_self _ _))]

theorem roomWF_of_cons {e : UserId × List ConnId} {rest : List (UserId × List ConnId)}
    (hwf : RoomWF (e :: rest)) : RoomWF rest := by
  obtain ⟨hnd, hents, hdisj⟩ := hwf
  refine ⟨(List.nodup_cons.mp hnd).2, ?_, ?_⟩
  · exact fun e' he' => hents e' (List.mem_cons_of_mem _ he')
  · exact fun e₁ h₁ e₂ h₂ => hdisj e₁ (List.mem_cons_of_mem _ h₁) e₂ (List.mem_cons_of_mem _ h₂)

theorem deliveredCount_eq_one {sender : UserId} {cid : ConnId} :
    ∀ {room : List (UserId × List ConnId)}, RoomWF room →
      ∀ {u : UserId} {conns : List ConnId}, (u, conns) ∈ room → u ≠ sender → cid ∈ conns →
      deliveredCount sender cid room = 1 := by
  intro room
  induction room with
  | nil => intro _ u conns hmem; exact absurd hmem (List.not_mem_nil _)
  | cons e rest ih =>
    intro hwf u conns hmem hu hcid
    have hwftail : RoomWF rest := roomWF_of_cons hwf
    obtain ⟨hnd, hents, hdisj⟩ := hwf
    rw [List.map_cons] at hnd
    rcases List.mem_cons.mp hmem with heq | htail
    · subst heq
      rw [deliveredCount, if_neg hu]
      have hone : conns.count cid = 1 :=
        List.count_eq_one_of_mem (hents (u, conns) (List.mem_cons_self _ _)).2 hcid
      have hzero : deliveredCount sender cid rest = 0 := by
        apply deliveredCount_eq_zero
        intro e' he'
        have hne : (u, conns).1 ≠ e'.1 := by
          intro hc
          have hmm : e'.1 ∈ List.map Prod.fst rest := List.mem_map_of_mem Prod.fst he'
          rw [← hc] at hmm
          exact (List.nodup_cons.mp hnd).1 hmm
        exact hdisj (u, conns) (List.mem_cons_self _ _) e' (List.mem_cons_of_mem _ he') hne cid hcid
      omega
    · obtain ⟨e1, e2⟩ := e
      have hzero : (if e1 = sender then 0 else e2.count cid) = 0 := by
        by_cases he : e1 = sender
        · rw [if_pos he]
        · rw [if_neg he]
          refine List.count_eq_zero.mpr ?_
          have hne : (u, conns).1 ≠ (e1, e2).1 := by
            intro hc
            have hmm : (u, conns).1 ∈ List.map Prod.fst rest := List.mem_map_of_mem Prod.fst htail
            rw [hc] at hmm
            exact (List.nodup_cons.mp hnd).1 hmm
          exact hdisj (u, conns) (List.mem_cons_of_mem _ htail) (e1, e2)
            (List.mem_cons_self _ _) hne cid hcid
      rw [deliveredCount, hzero, ih hwftail htail hu hcid]

theorem filter_ne_key_length {sender : UserId} :
    ∀ {room : List (UserId × List ConnId)}, (room.map Prod.fst).Nodup →
      sender ∈ room.map Prod.fst →
      (room.filter (fun e => e.1 != sender)).length = room.length - 1 := by
  intro room
  induction room with
  | nil => intro _ hmem; simp at hmem
  | cons e rest ih =>
    intro hnd hmem
    rw [List.map_cons] at hnd hmem
    by_cases he : e.1 = sender
    · have hrest : rest.filter (fun e => e.1 != sender) = rest := by
        refine List.filter_eq_self.mpr ?_
        intro a ha
        have hne : a.1 ≠ sender := by
          intro hc
          have hmm : a.1 ∈ List.map Prod.fst rest := List.mem_map_of_mem Prod.fst ha
          rw [hc, ← he] at hmm
          exact (List.nodup_cons.mp hnd).1 hmm
        simpa [bne_iff_ne] using hne
      simp [List.filter_cons, he, hrest]
    · have hmem' : sender ∈ rest.map Prod.fst := by
        rcases List.mem_cons.mp hmem with hc | hmm
        · exact absurd hc.symm he
        · exact hmm
      have hne : rest ≠ [] := by
        intro hc
        rw [hc] at hmem'
        simp at hmem'
      have hlen : 0 < rest.length := List.length_pos.mpr hne
      rw [List.filter_cons, if_pos (by simpa [bne_iff_ne] using he)]
      simp only [List.length_cons]
      rw [ih (List.nodup_cons.mp hnd).2 hmem']
      omega

theorem broadcastToRoom_ok_frame {h h' : Hub} {msg : WSMessage}
    (hok : broadcastToRoom h msg = .ok h') :
    h'.clients = h.clients ∧ h'.chatRooms = h.chatRooms ∧ h'.connRooms = h.connRooms ∧
      h'.closed = h.closed ∧ h'.broadcastQ = h.broadcastQ ∧ h'.published = h.published := by
  rw [broadcastToRoom] at hok
  split at hok
  · simp only [Except.ok.injEq] at hok
    subst hok
    exact ⟨rfl, rfl, rfl, rfl, rfl, rfl⟩
  · split at hok
    · simp only [Except.ok.injEq] at hok
      subst hok
      exact ⟨rfl, rfl, rfl, rfl, rfl, rfl⟩
    · exact absurd hok (by simp)

theorem alGet_removeConnFromRoom_ne {uid : UserId} {cid : ConnId}
    {rooms : List (RoomId × List (UserId × List ConnId))} {r r' : RoomId} (hne : r' ≠ r) :
    alGet r' (removeConnFromRoom r uid cid rooms) = alGet r' rooms := by
  rw [removeConnFromRoom]
  cases hroom : alGet r rooms with
  | none => rfl
  | some users => exact alGet_alSet_ne hne _ _

theorem occ_removeConnFromRoomUsers {uid : UserId} {cid : ConnId}
    {users : List (UserId × List ConnId)} {u : UserId} {conns' : List ConnId} {x : ConnId}
    (hu : alGet u (removeConnFromRoomUsers uid cid users) = some conns') (hx : x ∈ conns') :
    ∃ conns, alGet u users = some conns ∧ x ∈ conns ∧ (u = uid → x ≠ cid) := by
  rw [removeConnFromRoomUsers] at hu
  cases hg : alGet uid users with
  | none =>
    rw [hg] at hu
    refine ⟨conns', hu, hx, ?_⟩
    rintro rfl
    rw [hu] at hg
    exact absurd hg (by simp)
  | some conns0 =>
    rw [hg] at hu
    dsimp only at hu
    by_cases hemp : conns0.filter (fun x => x != cid) = []
    · rw [if_pos hemp] at hu
      by_cases huid : u = uid
      · subst huid
        rw [alGet_alRemove_self] at hu
        exact absurd hu (by simp)
      · rw [alGet_alRemove_ne huid] at hu
        exact ⟨conns', hu, hx, fun hc => absurd hc huid⟩
    · rw [if_neg hemp] at hu
      by_cases huid : u = uid
      · subst huid
        rw [alGet_alSet_self] at hu
        simp only [Option.some.injEq] at hu
        subst hu
        obtain ⟨hx0, hxne⟩ := mem_filter_ne.mp hx
        exact ⟨conns0, hg, hx0, fun _ => hxne⟩
      · rw [alGet_alSet_ne huid] at hu
        exact ⟨conns', hu, hx, fun hc => absurd hc huid⟩

theorem occ_removeConnFromRoom {uid : UserId} {cid : ConnId}
    {rooms : List (RoomId × List (UserId × List ConnId))} {r r' : RoomId}
    {users' : List (UserId × List ConnId)} {u : UserId} {conns' : List ConnId} {x : ConnId}
    (hget : alGet r' (removeConnFromRoom r uid cid rooms) = some users')
    (hu : alGet u users' = some conns') (hx : x ∈ conns') :
    ∃ users conns, alGet r' rooms = some users ∧ alGet u users = some conns ∧ x ∈ conns ∧
      (r' = r → u = uid → x ≠ cid) := by
  by_cases hr : r' = r
  · subst hr
    rw [removeConnFromRoom] at hget
    cases hroom : alGet r' rooms with
    | none =>
      rw [hroom] at hget
      rw [hget] at hroom
      exact absurd hroom (by simp)
    | some users0 =>
      rw [hroom, alGet_alSet_self] at hget
      simp only [Option.some.injEq] at hget
      subst hget
      obtain ⟨conns, hconns, hxc, himp⟩ := occ_removeConnFromRoomUsers hu hx
      exact ⟨users0, conns, rfl, hconns, hxc, fun _ => himp⟩
  · rw [alGet_removeConnFromRoom_ne hr] at hget
    exact ⟨users', conns', hget, hu, hx, fun hc => absurd hc hr⟩

theorem occ_foldRemove {uid : UserId} {cid : ConnId} :
    ∀ (rs : List RoomId) (cr : List (RoomId × List (UserId × List ConnId)))
      {r' : RoomId} {users' : List (UserId × List ConnId)} {u : UserId}
      {conns' : List ConnId} {x : ConnId},
      alGet r' (rs.foldl (fun cr r => removeConnFromRoom r uid cid cr) cr) = some users' →
      alGet u users' = some conns' → x ∈ conns' →
      ∃ users conns, alGet r' cr = some users ∧ alGet u users = some conns ∧ x ∈ conns ∧
        (u = uid → x = cid → r' ∉ rs) := by
  intro rs
  induction rs with
  | nil =>
    intro cr r' users' u conns' x hget hu hx
    exact ⟨users', conns', hget, hu, hx, fun _ _ => List.not_mem_nil _⟩
  | cons r0 rest ih =>
    intro cr r' users' u conns' x hget hu hx
    rw [List.foldl_cons] at hget
    obtain ⟨users1, conns1, hget1, hu1, hx1, himp1⟩ := ih _ hget hu hx
    obtain ⟨users, conns, hget0, hu0, hx0, himp0⟩ := occ_removeConnFromRoom hget1 hu1 hx1
    refine ⟨users, conns, hget0, hu0, hx0, ?_⟩
    rintro rfl rfl
    intro hmem
    rcases List.mem_cons.mp hmem with hc | hc
    · exact himp0 hc rfl rfl
    · exact himp1 rfl rfl hc

theorem nonempty_removeConnFromRoomUsers {uid : UserId} {cid : ConnId}
    {users : List (UserId × List ConnId)}
    (hne : ∀ u conns, alGet u users = some conns → conns ≠ []) :
    ∀ u conns', alGet u (removeConnFromRoomUsers uid cid users) = some conns' → conns' ≠ [] := by
  intro u conns' hu
  rw [removeConnFromRoomUsers] at hu
  cases hg : alGet uid users with
  | none =>
    rw [hg] at hu
    exact hne u conns' hu
  | some conns0 =>
    rw [hg] at hu
    dsimp only at hu
    by_cases hemp : conns0.filter (fun x => x != cid) = []
    · rw [if_pos hemp] at hu
      by_cases huid : u = uid
      · subst huid
        rw [alGet_alRemove_self] at hu
        exact absurd hu (by simp)
      · rw [alGet_alRemove_ne huid] at hu
        exact hne u conns' hu
    · rw [if_neg hemp] at hu
      by_cases huid : u = uid
      · subst huid
        rw [alGet_alSet_self] at hu
        simp only [Option.some.injEq] at hu
        subst hu
        exact hemp
      · rw [alGet_alSet_ne huid] at hu
        exact hne u conns' hu

theorem nonempty_removeConnFromRoom {uid : UserId} {cid : ConnId}
    {rooms : List (RoomId × List (UserId × List ConnId))} {r : RoomId}
    (hne : ∀ r' users, alGet r' rooms = some users →
      ∀ u conns, alGet u users = some conns → conns ≠ []) :
    ∀ r' users', alGet r' (removeConnFromRoom r uid cid rooms) = some users' →
      ∀ u conns', alGet u users' = some conns' → conns' ≠ [] := by
  intro r' users' hget u conns' hu
  rw [removeConnFromRoom] at hget
  cases hroom : alGet r rooms with
  | none =>
    rw [hroom] at hget
    exact hne r' users' hget u conns' hu
  | some users0 =>
    rw [hroom] at hget
    by_cases hr : r' = r
    · subst hr
      rw [alGet_alSet_self] at hget
      simp only [Option.some.injEq] at hget
      subst hget
      exact nonempty_removeConnFromRoomUsers (hne r' users0 hroom) u conns' hu
    · rw [alGet_alSet_ne hr] at hget
      exact hne r' users' hget u conns' hu

theorem nonempty_foldRemove {uid : UserId} {cid : ConnId} :
    ∀ (rs : List RoomId) (cr : List (RoomId × List (UserId × List ConnId))),
      (∀ r' users, alGet r' cr = some users →
        ∀ u conns, alGet u users = some conns → conns ≠ []) →
      ∀ r' users, alGet r' (rs.foldl (fun cr r => removeConnFromRoom r uid cid cr) cr) = some users →
        ∀ u conns, alGet u users = some conns → conns ≠ [] := by
  intro rs
  induction rs with
  | nil => intro cr hne; exact hne
  | cons r0 rest ih =>
    intro cr hne
    rw [List.foldl_cons]
    exact ih _ (nonempty_removeConnFromRoom hne)

theorem registerClient_clients (h : Hub) (c : WSClient) :
    (registerClient h c).clients =
      alSet c.userID (insertKey c.id ((alGet c.userID h.clients).getD [])) h.clients := rfl

theorem registerClient_chatRooms (h : Hub) (c : WSClient) :
    (registerClient h c).chatRooms = h.chatRooms := rfl

theorem registerClient_connRooms (h : Hub) (c : WSClient) :
    (registerClient h c).connRooms = h.connRooms := rfl

theorem registerClient_broadcastQ (h : Hub) (c : WSClient) :
    (registerClient h c).broadcastQ = h.broadcastQ ++ [statusMessage c.userID true] := rfl

theorem JoinChatRoom_clients (h : Hub) (c : WSClient) (r : RoomId) :
    (JoinChatRoom h c r).clients = h.clients := rfl

theorem JoinChatRoom_chatRooms (h : Hub) (c : WSClient) (r : RoomId) :
    (JoinChatRoom h c r).chatRooms =
      alSet r (alSet c.userID
          (insertKey c.id ((alGet c.userID ((alGet r h.chatRooms).getD [])).getD []))
          ((alGet r h.chatRooms).getD []))
        h.chatRooms := rfl

theorem JoinChatRoom_connRooms (h : Hub) (c : WSClient) (r : RoomId) :
    (JoinChatRoom h c r).connRooms =
      alSet c.id (insertKey r ((alGet c.id h.connRooms).getD [])) h.connRooms := rfl

theorem LeaveChatRoom_clients (h : Hub) (c : WSClient) (r : RoomId) :
    (LeaveChatRoom h c r).clients = h.clients := rfl

theorem LeaveChatRoom_chatRooms (h : Hub) (c : WSClient) (r : RoomId) :
    (LeaveChatRoom h c r).chatRooms = removeConnFromRoom r c.userID c.id h.chatRooms := rfl

theorem LeaveChatRoom_connRooms (h : Hub) (c : WSClient) (r : RoomId) :
    (LeaveChatRoom h c r).connRooms =
      alSet c.id (((alGet c.id h.connRooms).getD []).filter (fun x => x != r)) h.connRooms := rfl

theorem unregisterClient_connRooms (h : Hub) (c : WSClient) :
    (unregisterClient h c).connRooms = h.connRooms := rfl

theorem unregisterClient_chatRooms (h : Hub) (c : WSClient) :
    (unregisterClient h c).chatRooms =
      ((alGet c.id h.connRooms).getD []).foldl
        (fun cr r => removeConnFromRoom r c.userID c.id cr) h.chatRooms := rfl

theorem unregisterClient_clients (h : Hub) (c : WSClient) :
    (unregisterClient h c).clients =
      match alGet c.userID h.clients with
      | none => h.clients
      | some conns =>
        if conns.filter (fun x => x != c.id) = [] then alRemove c.userID h.clients
        else alSet c.userID (conns.filter (fun x => x != c.id)) h.clients := by
  cases hget : alGet c.userID h.clients with
  | none =>
    show (match alGet c.userID h.clients with
      | none => (h.clients, false)
      | some conns =>
        let conns' := conns.filter (fun x => x != c.id)
        if conns' = [] then (alRemove c.userID h.clients, true)
        else (alSet c.userID conns' h.clients, false)).1 = h.clients
    rw [hget]
  | some conns =>
    show (match alGet c.userID h.clients with
      | none => (h.clients, false)
      | some conns =>
        let conns' := conns.filter (fun x => x != c.id)
        if conns' = [] then (alRemove c.userID h.clients, true)
        else (alSet c.userID conns' h.clients, false)).1 = _
    rw [hget]
    by_cases hemp : conns.filter (fun x => x != c.id) = []
    · dsimp only
      rw [if_pos hemp, if_pos hemp]
    · dsimp only
      rw [if_neg hemp, if_neg hemp]

theorem unregisterClient_broadcastQ (h : Hub) (c : WSClient) :
    (unregisterClient h c).broadcastQ =
      h.broadcastQ ++
        (match alGet c.userID h.clients with
         | none => []
         | some conns =>
           if conns.filter (fun x => x != c.id) = [] then [statusMessage c.userID false]
           else []) := by
  have hbq : (unregisterClient h c).broadcastQ =
      h.broadcastQ ++
        (if (match alGet c.userID h.clients with
          | none => (h.clients, false)
          | some conns =>
            let conns' := conns.filter (fun x => x != c.id)
            if conns' = [] then (alRemove c.userID h.clients, true)
            else (alSet c.userID conns' h.clients, false)).2
         then [statusMessage c.userID false] else []) := rfl
  rw [hbq]
  cases hget : alGet c.userID h.clients with
  | none => rfl
  | some conns =>
    dsimp only
    by_cases hemp : conns.filter (fun x => x != c.id) = []
    · rw [if_pos hemp, if_pos hemp]
      simp
    · rw [if_neg hemp, if_neg hemp]
      simp

theorem unregister_clients_occ {h : Hub} {c : WSClient} {u : UserId} {l : List ConnId}
    {x : ConnId} (hu : alGet u (unregisterClient h c).clients = some l) (hx : x ∈ l) :
    ∃ l₀, alGet u h.clients = some l₀ ∧ x ∈ l₀ ∧ (u = c.userID → x ≠ c.id) := by
  rw [unregisterClient_clients] at hu
  cases hget : alGet c.userID h.clients with
  | none =>
    rw [hget] at hu
    refine ⟨l, hu, hx, ?_⟩
    rintro rfl
    rw [hget] at hu
    exact absurd hu (by simp)
  | some conns =>
    rw [hget] at hu
    dsimp only at hu
    by_cases hemp : conns.filter (fun x => x != c.id) = []
    · rw [if_pos hemp] at hu
      by_cases huc : u = c.userID
      · subst huc
        rw [alGet_alRemove_self] at hu
        exact absurd hu (by simp)
      · rw [alGet_alRemove_ne huc] at hu
        exact ⟨l, hu, hx, fun hc => absurd hc huc⟩
    · rw [if_neg hemp] at hu
      by_cases huc : u = c.userID
      · subst huc
        rw [alGet_alSet_self] at hu
        simp only [Option.some.injEq] at hu
        subst hu
        obtain ⟨hx0, hxne⟩ := mem_filter_ne.mp hx
        exact ⟨conns, hget, hx0, fun _ => hxne⟩
      · rw [alGet_alSet_ne huc] at hu
        exact ⟨l, hu, hx, fun hc => absurd hc huc⟩

theorem unregister_clients_keep {h : Hub} {c : WSClient} {u : UserId} {l : List ConnId}
    {x : ConnId} (hget : alGet u h.clients = some l) (hx : x ∈ l) (hxne : x ≠ c.id) :
    ∃ l', alGet u (unregisterClient h c).clients = some l' ∧ x ∈ l' := by
  rw [unregisterClient_clients]
  cases hg : alGet c.userID h.clients with
  | none => exact ⟨l, hget, hx⟩
  | some conns =>
    dsimp only
    by_cases huc : u = c.userID
    · subst huc
      rw [hg] at hget
      simp only [Option.some.injEq] at hget
      subst hget
      have hxf : x ∈ conns.filter (fun y => y != c.id) := mem_filter_ne.mpr ⟨hx, hxne⟩
      have hemp : ¬ conns.filter (fun y => y != c.id) = [] := by
        intro hc
        rw [hc] at hxf
        exact absurd hxf (List.not_mem_nil _)
      rw [if_neg hemp, alGet_alSet_self]
      exact ⟨conns.filter (fun y => y != c.id), rfl, hxf⟩
    · by_cases hemp : conns.filter (fun y => y != c.id) = []
      · rw [if_pos hemp, alGet_alRemove_ne huc]
        exact ⟨l, hget, hx⟩
      · rw [if_neg hemp, alGet_alSet_ne huc]
        exact ⟨l, hget, hx⟩

theorem unregister_clients_nonempty {h : Hub} {c : WSClient} (hup : InvUserPruned h) :
    ∀ u l, alGet u (unregisterClient h c).clients = some l → l ≠ [] := by
  intro u l hu
  rw [unregisterClient_clients] at hu
  cases hget : alGet c.userID h.clients with
  | none =>
    rw [hget] at hu
    exact hup u l hu
  | some conns =>
    rw [hget] at hu
    dsimp only at hu
    by_cases hemp : conns.filter (fun x => x != c.id) = []
    · rw [if_pos hemp] at hu
      by_cases huc : u = c.userID
      · subst huc
        rw [alGet_alRemove_self] at hu
        exact absurd hu (by simp)
      · rw [alGet_alRemove_ne huc] at hu
        exact hup u l hu
    · rw [if_neg hemp] at hu
      by_cases huc : u = c.userID
      · subst huc
        rw [alGet_alSet_self] at hu
        simp only [Option.some.injEq] at hu
        subst hu
        exact hemp
      · rw [alGet_alSet_ne huc] at hu
        exact hup u l hu

theorem register_clients_occ {h : Hub} {c : WSClient} {u : UserId} {l : List ConnId}
    {cid : ConnId} (hg : alGet u (registerClient h c).clients = some l) (hm : cid ∈ l) :
    (∃ l₀, alGet u h.clients = some l₀ ∧ cid ∈ l₀) ∨ (u = c.userID ∧ cid = c.id) := by
  rw [registerClient_clients] at hg
  by_cases huc : u = c.userID
  · subst huc
    rw [alGet_alSet_self] at hg
    simp only [Option.some.injEq] at hg
    subst hg
    rcases mem_insertKey.mp hm with rfl | hmm
    · exact Or.inr ⟨rfl, rfl⟩
    · cases hbase : alGet c.userID h.clients with
      | none =>
        rw [hbase] at hmm
        simp at hmm
      | some l₀ =>
        rw [hbase] at hmm
        simp only [Option.getD_some] at hmm
        exact Or.inl ⟨l₀, rfl, hmm⟩
  · rw [alGet_alSet_ne huc] at hg
    exact Or.inl ⟨l, hg, hm⟩

theorem join_rooms_occ {h : Hub} {c : WSClient} {r r' : RoomId}
    {us : List (UserId × List ConnId)} {u : UserId} {cs : List ConnId} {x : ConnId}
    (hget : alGet r' (JoinChatRoom h c r).chatRooms = some us)
    (hu : alGet u us = some cs) (hx : x ∈ cs) :
    (∃ us₀ cs₀, alGet r' h.chatRooms = some us₀ ∧ alGet u us₀ = some cs₀ ∧ x ∈ cs₀) ∨
      (r' = r ∧ u = c.userID ∧ x = c.id) := by
  rw [JoinChatRoom_chatRooms] at hget
  by_cases hr : r' = r
  · subst hr
    rw [alGet_alSet_self] at hget
    simp only [Option.some.injEq] at hget
    subst hget
    by_cases huc : u = c.userID
    · subst huc
      rw [alGet_alSet_self] at hu
      simp only [Option.some.injEq] at hu
      subst hu
      rcases mem_insertKey.mp hx with rfl | hmm
      · exact Or.inr ⟨rfl, rfl, rfl⟩
      · cases hroom : alGet r' h.chatRooms with
        | none =>
          rw [hroom] at hmm
          simp [alGet] at hmm
        | some us₀ =>
          rw [hroom] at hmm
          simp only [Option.getD_some] at hmm
          cases hcs : alGet c.userID us₀ with
          | none =>
            rw [hcs] at hmm
            simp at hmm
          | some cs₀ =>
            rw [hcs] at hmm
            simp only [Option.getD_some] at hmm
            exact Or.inl ⟨us₀, cs₀, rfl, hcs, hmm⟩
    · rw [alGet_alSet_ne huc] at hu
      cases hroom : alGet r' h.chatRooms with
      | none =>
        rw [hroom] at hu
        simp [alGet] at hu
      | some us₀ =>
        rw [hroom] at hu
        simp only [Option.getD_some] at hu
        exact Or.inl ⟨us₀, cs, rfl, hu, hx⟩
  · rw [alGet_alSet_ne hr] at hget
    exact Or.inl ⟨us, cs, hget, hu, hx⟩

theorem broadcastMessage_roomScoped {h : Hub} {msg : WSMessage}
    (hrs : roomScoped msg.type = true) :
    broadcastMessage h msg = broadcastToRoom h msg := by
  cases htype : msg.type <;> simp_all [broadcastMessage, roomScoped]

theorem broadcastToRoom_buffers {h h' : Hub} {msg : WSMessage} {room : List (UserId × List ConnId)}
    (hroom : alGet msg.chatID h.chatRooms = some room)
    (hok : broadcastToRoom h msg = .ok h') :
    ∀ cid, bufGet cid h'.buffers =
      bufGet cid h.buffers ++ List.replicate (deliveredCount msg.userID cid room) msg := by
  rw [broadcastToRoom] at hok
  split at hok
  · rename_i heq
    rw [heq] at hroom
    exact absurd hroom (by simp)
  · rename_i users heq
    rw [heq] at hroom
    simp only [Option.some.injEq] at hroom
    subst hroom
    split at hok
    · rename_i bufs hsr
      simp only [Except.ok.injEq] at hok
      subst hok
      exact sendToRoom_ok users h.buffers bufs hsr
    · exact absurd hok (by simp)

theorem coherent_alGet {h : Hub} {c : WSClient} (hco : coherentClient h c) :
    ∀ u l, alGet u h.clients = some l → c.id ∈ l → u = c.userID :=
  fun _ l hget hmem => hco (_, l) (alGet_mem hget) hmem

theorem hubWF_register {h : Hub} {c : WSClient} (hwf : HubWF h) (hco : coherentClient h c) :
    HubWF (registerClient h c) := by
  obtain ⟨hru, hrup, hup, huu, htr⟩ := hwf
  refine ⟨?_, ?_, ?_, ?_, ?_⟩
  · intro r users hget u conns hgu cid hcid
    rw [registerClient_chatRooms] at hget
    obtain ⟨uc, hucget, hucmem⟩ := hru r users hget u conns hgu cid hcid
    rw [registerClient_clients]
    by_cases huc : u = c.userID
    · subst huc
      refine ⟨insertKey c.id ((alGet c.userID h.clients).getD []), alGet_alSet_self _ _ _, ?_⟩
      rw [hucget]
      simp only [Option.getD_some]
      exact mem_insertKey.mpr (Or.inr hucmem)
    · rw [alGet_alSet_ne huc]
      exact ⟨uc, hucget, hucmem⟩
  · intro r users hget
    rw [registerClient_chatRooms] at hget
    exact hrup r users hget
  · intro u conns hget
    rw [registerClient_clients] at hget
    by_cases huc : u = c.userID
    · subst huc
      rw [alGet_alSet_self] at hget
      simp only [Option.some.injEq] at hget
      subst hget
      exact insertKey_ne_nil _ _
    · rw [alGet_alSet_ne huc] at hget
      exact hup u conns hget
  · intro u₁ u₂ l₁ l₂ cid hg1 hg2 hm1 hm2
    rcases register_clients_occ hg1 hm1 with ⟨l₁₀, hg1₀, hm1₀⟩ | ⟨hu1, hc1⟩
    · rcases register_clients_occ hg2 hm2 with ⟨l₂₀, hg2₀, hm2₀⟩ | ⟨hu2, hc2⟩
      · exact huu u₁ u₂ l₁₀ l₂₀ cid hg1₀ hg2₀ hm1₀ hm2₀
      · rw [hc2] at hm1₀
        rw [hu2]
        exact coherent_alGet hco u₁ l₁₀ hg1₀ hm1₀
    · rcases register_clients_occ hg2 hm2 with ⟨l₂₀, hg2₀, hm2₀⟩ | ⟨hu2, _⟩
      · rw [hc1] at hm2₀
        rw [hu1]
        exact (coherent_alGet hco u₂ l₂₀ hg2₀ hm2₀).symm
      · rw [hu1, hu2]
  · intro r users hget u conns hgu cid hcid
    rw [registerClient_chatRooms] at hget
    rw [registerClient_connRooms]
    exact htr r users hget u conns hgu cid hcid

theorem hubWF_join {h : Hub} {c : WSClient} {r : RoomId} (hwf : HubWF h)
    (hreg : registeredClient h c) : HubWF (JoinChatRoom h c r) := by
  obtain ⟨hru, hrup, hup, huu, htr⟩ := hwf
  have hregl : ∃ l, alGet c.userID h.clients = some l ∧ c.id ∈ l := by
    rw [registeredClient] at hreg
    cases hb : alGet c.userID h.clients with
    | none =>
      rw [hb] at hreg
      simp at hreg
    | some l =>
      rw [hb] at hreg
      simp only [Option.getD_some] at hreg
      exact ⟨l, rfl, hreg⟩
  refine ⟨?_, ?_, ?_, ?_, ?_⟩
  · intro r' users hget u conns hgu cid hcid
    rw [JoinChatRoom_clients]
    rcases join_rooms_occ hget hgu hcid with ⟨us₀, cs₀, hget₀, hgu₀, hmem₀⟩ | ⟨hr, hu, hc⟩
    · exact hru r' us₀ hget₀ u cs₀ hgu₀ cid hmem₀
    · subst hu
      subst hc
      exact hregl
  · intro r' users hget u conns hgu
    rw [JoinChatRoom_chatRooms] at hget
    by_cases hr : r' = r
    · subst hr
      rw [alGet_alSet_self] at hget
      simp only [Option.some.injEq] at hget
      subst hget
      by_cases huc : u = c.userID
      · subst huc
        rw [alGet_alSet_self] at hgu
        simp only [Option.some.injEq] at hgu
        subst hgu
        exact insertKey_ne_nil _ _
      · rw [alGet_alSet_ne huc] at hgu
        cases hroom : alGet r' h.chatRooms with
        | none =>
          rw [hroom] at hgu
          simp [alGet] at hgu
        | some us₀ =>
          rw [hroom] at hgu
          simp only [Option.getD_some] at hgu
          exact hrup r' us₀ hroom u conns hgu
    · rw [alGet_alSet_ne hr] at hget
      exact hrup r' users hget u conns hgu
  · intro u conns hget
    rw [JoinChatRoom_clients] at hget
    exact hup u conns hget
  · intro u₁ u₂ l₁ l₂ cid hg1 hg2
    rw [JoinChatRoom_clients] at hg1 hg2
    exact huu u₁ u₂ l₁ l₂ cid hg1 hg2
  · intro r' users hget u conns hgu cid hcid
    rw [JoinChatRoom_connRooms]
    rcases join_rooms_occ hget hgu hcid with ⟨us₀, cs₀, hget₀, hgu₀, hmem₀⟩ | ⟨hr, hu, hc⟩
    · have hold := htr r' us₀ hget₀ u cs₀ hgu₀ cid hmem₀
      by_cases hcc : cid = c.id
      · subst hcc
        rw [alGet_alSet_self]
        simp only [Option.getD_some]
        exact mem_insertKey.mpr (Or.inr hold)
      · rw [alGet_alSet_ne hcc]
        exact hold
    · subst hr
      subst hc
      rw [alGet_alSet_self]
      simp only [Option.getD_some]
      exact mem_insertKey.mpr (Or.inl rfl)

theorem hubWF_leave {h : Hub} {c : WSClient} {r : RoomId} (hwf : HubWF h)
    (hco : coherentClient h c) : HubWF (LeaveChatRoom h c r) := by
  obtain ⟨hru, hrup, hup, huu, htr⟩ := hwf
  refine ⟨?_, ?_, ?_, ?_, ?_⟩
  · intro r' users hget u conns hgu cid hcid
    rw [LeaveChatRoom_clients]
    rw [LeaveChatRoom_chatRooms] at hget
    obtain ⟨us₀, cs₀, hget₀, hgu₀, hmem₀, _⟩ := occ_removeConnFromRoom hget hgu hcid
    exact hru r' us₀ hget₀ u cs₀ hgu₀ cid hmem₀
  · intro r' users hget u conns hgu
    rw [LeaveChatRoom_chatRooms] at hget
    exact nonempty_removeConnFromRoom hrup r' users hget u conns hgu
  · intro u conns hget
    rw [LeaveChatRoom_clients] at hget
    exact hup u conns hget
  · intro u₁ u₂ l₁ l₂ cid hg1 hg2
    rw [LeaveChatRoom_clients] at hg1 hg2
    exact huu u₁ u₂ l₁ l₂ cid hg1 hg2
  · intro r' users hget u conns hgu cid hcid
    rw [LeaveChatRoom_chatRooms] at hget
    obtain ⟨us₀, cs₀, hget₀, hgu₀, hmem₀, himp⟩ := occ_removeConnFromRoom hget hgu hcid
    have hold := htr r' us₀ hget₀ u cs₀ hgu₀ cid hmem₀
    rw [LeaveChatRoom_connRooms]
    by_cases hcc : cid = c.id
    · subst hcc
      obtain ⟨uc, hucget, hucmem⟩ := hru r' us₀ hget₀ u cs₀ hgu₀ c.id hmem₀
      have huc : u = c.userID := coherent_alGet hco u uc hucget hucmem
      have hrne : r' ≠ r := fun hc => (himp hc huc) rfl
      rw [alGet_alSet_self]
      simp only [Option.getD_some]
      exact mem_filter_ne.mpr ⟨hold, hrne⟩
    · rw [alGet_alSet_ne hcc]
      exact hold

theorem hubWF_unregister {h : Hub} {c : WSClient} (hwf : HubWF h) (hco : coherentClient h c) :
    HubWF (unregisterClient h c) := by
  obtain ⟨hru, hrup, hup, huu, htr⟩ := hwf
  refine ⟨?_, ?_, ?_, ?_, ?_⟩
  · intro r' users hget u conns hgu cid hcid
    rw [unregisterClient_chatRooms] at hget
    obtain ⟨us₀, cs₀, hget₀, hgu₀, hmem₀, himp⟩ := occ_foldRemove _ _ hget hgu hcid
    obtain ⟨uc, hucget, hucmem⟩ := hru r' us₀ hget₀ u cs₀ hgu₀ cid hmem₀
    have hcid_ne : cid ≠ c.id := by
      intro hcc
      subst hcc
      have huc : u = c.userID := coherent_alGet hco u uc hucget hucmem
      have htrk : r' ∈ (alGet c.id h.connRooms).getD [] :=
        htr r' us₀ hget₀ u cs₀ hgu₀ c.id hmem₀
      exact (himp huc rfl) htrk
    exact unregister_clients_keep hucget hucmem hcid_ne
  · intro r' users hget u conns hgu
    rw [unregisterClient_chatRooms] at hget
    exact nonempty_foldRemove _ _ hrup r' users hget u conns hgu
  · exact unregister_clients_nonempty hup
  · intro u₁ u₂ l₁ l₂ cid hg1 hg2 hm1 hm2
    obtain ⟨l₁₀, hg1₀, hm1₀, _⟩ := unregister_clients_occ hg1 hm1
    obtain ⟨l₂₀, hg2₀, hm2₀, _⟩ := unregister_clients_occ hg2 hm2
    exact huu u₁ u₂ l₁₀ l₂₀ cid hg1₀ hg2₀ hm1₀ hm2₀
  · intro r' users hget u conns hgu cid hcid
    rw [unregisterClient_chatRooms] at hget
    obtain ⟨us₀, cs₀, hget₀, hgu₀, hmem₀, _⟩ := occ_foldRemove _ _ hget hgu hcid
    rw [unregisterClient_connRooms]
    exact htr r' us₀ hget₀ u cs₀ hgu₀ cid hmem₀

theorem hubWF_applyOp {h : Hub} {op : HubOp} (hwf : HubWF h) (hv : ValidOp h op) :
    HubWF (applyOp h op) := by
  cases op with
  | register c => exact hubWF_register hwf hv
  | unregister c => exact hubWF_unregister hwf hv
  | joinRoom c r => exact hubWF_join hwf hv.2
  | leaveRoom c r => exact hubWF_leave hwf hv

theorem hubWF_applyOps : ∀ {h : Hub} {ops : List HubOp}, ValidSeq h ops → HubWF h →
    HubWF (applyOps h ops) := by
  intro h ops hv
  induction hv with
  | nil => exact fun hwf => hwf
  | cons hop _ ih => exact fun hwf => ih (hubWF_applyOp hwf hop)

theorem hubWF_empty : HubWF emptyHub := by
  refine ⟨?_, ?_, ?_, ?_, ?_⟩
  · intro r users hget
    simp [emptyHub, alGet] at hget
  · intro r users hget
    simp [emptyHub, alGet] at hget
  · intro u conns hget
    simp [emptyHub, alGet] at hget
  · intro u₁ u₂ l₁ l₂ cid hg1
    simp [emptyHub, alGet] at hg1
  · intro r users hget
    simp [emptyHub, alGet] at hget

theorem validSeq_append_left : ∀ {ops₁ : List HubOp} {h : Hub} {ops₂ : List HubOp},
    ValidSeq h (ops₁ ++ ops₂) → ValidSeq h ops₁ := by
  intro ops₁
  induction ops₁ with
  | nil => exact fun _ => ValidSeq.nil _
  | cons op rest ih =>
    intro h ops₂ hv
    rw [List.cons_append] at hv
    cases hv with
    | cons hop hrest => exact ValidSeq.cons hop (ih hrest)

theorem registryInvAmended_of_hubWF {h : Hub} (hwf : HubWF h) : RegistryInvAmended h :=
  ⟨hwf.1, hwf.2.2.1⟩

theorem deliveredCount_eq_zero_of {sender : UserId} {cid : ConnId} :
    ∀ {room : List (UserId × List ConnId)}, (∀ e ∈ room, e.1 ≠ sender → cid ∉ e.2) →
      deliveredCount sender cid room = 0 := by
  intro room
  induction room with
  | nil => intro _; rfl
  | cons e rest ih =>
    intro hall
    obtain ⟨u, conns⟩ := e
    rw [deliveredCount, ih (fun e he hne => hall e (List.mem_cons_of_mem _ he) hne)]
    by_cases hu : u = sender
    · simp [hu]
    · rw [if_neg hu,
        List.count_eq_zero.mpr (hall (u, conns) (List.mem_cons_self _ _) hu)]

theorem foldl_add_length : ∀ (l : List (UserId × List ConnId)) (n : Nat),
    l.foldl (fun n e => n + e.2.length) n = n + (l.map (fun e => e.2.length)).sum := by
  intro l
  induction l with
  | nil => intro n; simp
  | cons e rest ih =>
    intro n
    rw [List.foldl_cons, ih, List.map_cons, List.sum_cons]
    omega

/-- Claim C1: a `WSMessageReceived` event broadcast to room R enqueues the
event once into the outbound buffer of every connection registered in the
room under a user other than the sender, enqueues nothing into the
sender's own connections nor into connections outside the room, and the
number of user entries receiving deliveries is exactly N-1 of the N
joined users. -/
theorem C1_broadcast_delivers_to_room_except_sender
    (h h' : Hub) (msg : WSMessage) (room : List (UserId × List ConnId))
    (htype : msg.type = WSMessageType.messageReceived)
    (hroom : alGet msg.chatID h.chatRooms = some room)
    (hwf : RoomWF room)
    (hsender : msg.userID ∈ room.map Prod.fst)
    (hok : broadcastMessage h msg = Except.ok h') :
    (∀ u conns, (u, conns) ∈ room → u ≠ msg.userID →
        ∀ cid ∈ conns, bufGet cid h'.buffers = bufGet cid h.buffers ++ [msg]) ∧
    (∀ u conns, (u, conns) ∈ room → u = msg.userID →
        ∀ cid ∈ conns, bufGet cid h'.buffers = bufGet cid h.buffers) ∧
    (∀ cid, (∀ e ∈ room, cid ∉ e.2) → bufGet cid h'.buffers = bufGet cid h.buffers) ∧
    (room.filter (fun e => e.1 != msg.userID)).length = room.length - 1 := by
  have hok' : broadcastToRoom h msg = .ok h' := by
    rw [← broadcastMessage_roomScoped (by rw [htype]; rfl)]
    exact hok
  have hbuf := broadcastToRoom_buffers hroom hok'
  refine ⟨?_, ?_, ?_, ?_⟩
  · intro u conns hmem hu cid hcid
    rw [hbuf cid, deliveredCount_eq_one hwf hmem hu hcid]
    rfl
  · intro u conns hmem hu cid hcid
    obtain ⟨hnd, hents, hdisj⟩ := hwf
    have hdc : deliveredCount msg.userID cid room = 0 := by
      apply deliveredCount_eq_zero_of
      intro e he hene
      have hne : (u, conns).1 ≠ e.1 := by
        intro hc
        apply hene
        rw [← hc]
        exact hu
      exact hdisj (u, conns) hmem e he hne cid hcid
    rw [hbuf cid, hdc]
    simp
  · intro cid hall
    rw [hbuf cid, deliveredCount_eq_zero hall]
    simp
  · exact filter_ne_key_length hwf.1 hsender

/-- Claim C1 witness: on a concrete room with users 1, 2, 3 and sender 1,
connection 20 gains the event, the sender's connection 10 gains nothing,
and 2 of the 3 user entries receive deliveries. -/
theorem C1_witness :
    bufGet 20 w1Hub'.buffers = bufGet 20 w1Hub.buffers ++ [w1Msg] ∧
    bufGet 10 w1Hub'.buffers = bufGet 10 w1Hub.buffers ∧
    (w1Room.filter (fun e => e.1 != w1Msg.userID)).length = w1Room.length - 1 := by
  have h := C1_broadcast_delivers_to_room_except_sender w1Hub w1Hub' w1Msg w1Room rfl rfl
    (by decide) (by decide) rfl
  exact ⟨h.1 2 [20] (by decide) (by decide) 20 (by decide),
    h.2.1 1 [10] (by decide) (by decide) 10 (by decide), h.2.2.2⟩

/-- Claim C2 counterexample: the valid sequence register, join room 5,
leave room 5 leaves room 5 present in the by-room index with an empty
user set, so the registry invariant as claimed — which requires emptied
room entries to be pruned — fails on the code. -/
theorem C2_counterexample :
    ValidSeq emptyHub c2Ops ∧
    alGet 5 (applyOps emptyHub c2Ops).chatRooms = some [] ∧
    ¬ RegistryInv (applyOps emptyHub c2Ops) := by
  have hv : ValidSeq emptyHub c2Ops :=
    ValidSeq.cons (by decide) (ValidSeq.cons (by decide)
      (ValidSeq.cons (by decide) (ValidSeq.nil _)))
  have hroom : alGet 5 (applyOps emptyHub c2Ops).chatRooms = some [] := by decide
  refine ⟨hv, hroom, ?_⟩
  rintro ⟨_, hpr, _⟩
  exact (hpr 5 [] hroom) rfl

/-- Claim C2 (amended): after every prefix of a valid operation sequence
applied to the initially empty hub, every connection id appearing in
by-room also appears in by-user under the same user id, and every
by-user entry with an empty connection set has been pruned.  The claimed
pruning of room entries whose user set emptied does not hold (the code
never deletes a room entry) and is dropped. -/
theorem C2_registry_invariant_amended (ops₁ ops₂ : List HubOp)
    (hv : ValidSeq emptyHub (ops₁ ++ ops₂)) :
    RegistryInvAmended (applyOps emptyHub ops₁) :=
  registryInvAmended_of_hubWF (hubWF_applyOps (validSeq_append_left hv) hubWF_empty)

/-- Claim C2 witness: the amended invariant after registering one
connection. -/
theorem C2_witness : RegistryInvAmended (applyOps emptyHub [HubOp.register c2Client]) :=
  C2_registry_invariant_amended [HubOp.register c2Client] []
    (ValidSeq.cons (by decide) (ValidSeq.nil _))

/-- Claim C3: a second unregister of the same connection leaves the
registry untouched and emits no presence event, but the unguarded
`close(client.Send)` at websocket.go:177 runs again — the `closed`
effect list gains a second entry for connection 10, which in Go panics
(close of an already-closed channel), contradicting the claimed
no-op. -/
theorem C3_double_unregister_closes_again :
    c3Twice.clients = c3Once.clients ∧
    c3Twice.chatRooms = c3Once.chatRooms ∧
    c3Twice.broadcastQ = c3Once.broadcastQ ∧
    c3Twice.closed.count 10 = 2 := by
  exact ⟨rfl, rfl, rfl, rfl⟩

/-- Claim C4: when the connection is registered under its user, unregister
appends the presence-offline event to the broadcast channel exactly when
no other connection of that user remains; otherwise the broadcast
channel is unchanged. -/
theorem C4_offline_iff_last_connection (h : Hub) (c : WSClient) (conns : List ConnId)
    (hget : alGet c.userID h.clients = some conns) (_hmem : c.id ∈ conns) :
    ((unregisterClient h c).broadcastQ = h.broadcastQ ++ [statusMessage c.userID false] ↔
      conns.filter (fun x => x != c.id) = []) ∧
    (conns.filter (fun x => x != c.id) ≠ [] →
      (unregisterClient h c).broadcastQ = h.broadcastQ) := by
  rw [unregisterClient_broadcastQ, hget]
  dsimp only
  by_cases hemp : conns.filter (fun x => x != c.id) = []
  · rw [if_pos hemp]
    exact ⟨⟨fun _ => hemp, fun _ => rfl⟩, fun hc => absurd hemp hc⟩
  · rw [if_neg hemp]
    refine ⟨⟨fun heq => ?_, fun hc => absurd hc hemp⟩, fun _ => by simp⟩
    exfalso
    rw [List.append_nil] at heq
    have hlen := congrArg List.length heq
    simp at hlen

/-- Claim C4 witness: user 1 keeps connection 11, so unregistering
connection 10 emits no offline event. -/
theorem C4_witness : (unregisterClient w4Hub w4Client).broadcastQ = w4Hub.broadcastQ :=
  (C4_offline_iff_last_connection w4Hub w4Client [10, 11] (by decide) (by decide)).2 (by decide)

set_option maxRecDepth 20000 in
/-- Claim C5: with connection 20's buffer at capacity, the broadcast does
not unregister it and continue — the source executes
`h.unregister <- client` on the hub's unbuffered unregister channel from
inside the hub's own `Run` loop, the channel's only receiver, so the
broadcast is stuck at connection 20 (modelled by the error result): 20
is never unregistered and under the modelled iteration order connection
30 never receives the event. -/
theorem C5_full_buffer_blocks_broadcast :
    broadcastMessage c5Hub c5Msg = Except.error 20 := by
  rfl

/-- Claim C6: broadcasting delivers the event locally — user 2's
connection 20 receives it — yet nothing is published to the shared Redis
channel: the repository contains no publish call, so the outbound half
of the cross-process bridge claimed by the spec does not exist. -/
theorem C6_no_outbound_publish :
    broadcastMessage c6Hub c6Msg = Except.ok c6Hub' ∧
    bufGet 20 c6Hub'.buffers = [c6Msg] ∧
    c6Hub'.published = [] := by
  exact ⟨rfl, rfl, rfl⟩

/-- Claim C7: registering user 1 enqueues the presence-online event on the
broadcast channel, but processing it dispatches to the unimplemented
contact stub `broadcastToUserContacts`: the hub is returned unchanged
and the buffer of contact user 2's registered connection 20 stays empty
— the presence-online event never reaches B. -/
theorem C7_presence_online_never_reaches_contacts :
    c7Hub.broadcastQ = [statusMessage 2 true, statusMessage 1 true] ∧
    broadcastMessage c7Hub (statusMessage 1 true) = Except.ok c7Hub ∧
    bufGet 20 c7Hub.buffers = [] := by
  exact ⟨rfl, rfl, rfl⟩

/-- Claim C8: two room-scoped events broadcast by the hub in order are
enqueued, in that order, into the buffer of every room connection that
receives both. -/
theorem C8_same_room_ordering
    (h h₁ h₂ : Hub) (msg₁ msg₂ : WSMessage) (room : List (UserId × List ConnId))
    (hrs₁ : roomScoped msg₁.type = true) (hrs₂ : roomScoped msg₂.type = true)
    (hchat : msg₂.chatID = msg₁.chatID)
    (hroom : alGet msg₁.chatID h.chatRooms = some room)
    (hwf : RoomWF room)
    (hok₁ : broadcastMessage h msg₁ = Except.ok h₁)
    (hok₂ : broadcastMessage h₁ msg₂ = Except.ok h₂)
    {u : UserId} {conns : List ConnId} (hmem : (u, conns) ∈ room)
    (hu₁ : u ≠ msg₁.userID) (hu₂ : u ≠ msg₂.userID)
    {cid : ConnId} (hcid : cid ∈ conns) :
    bufGet cid h₂.buffers = bufGet cid h.buffers ++ [msg₁, msg₂] := by
  have hok₁' : broadcastToRoom h msg₁ = .ok h₁ := by
    rw [← broadcastMessage_roomScoped hrs₁]
    exact hok₁
  have hok₂' : broadcastToRoom h₁ msg₂ = .ok h₂ := by
    rw [← broadcastMessage_roomScoped hrs₂]
    exact hok₂
  have hframe := broadcastToRoom_ok_frame hok₁'
  have hroom₁ : alGet msg₂.chatID h₁.chatRooms = some room := by
    rw [hframe.2.1, hchat]
    exact hroom
  have hb₁ := broadcastToRoom_buffers hroom hok₁' cid
  have hb₂ := broadcastToRoom_buffers hroom₁ hok₂' cid
  rw [hb₂, hb₁, deliveredCount_eq_one hwf hmem hu₁ hcid,
    deliveredCount_eq_one hwf hmem hu₂ hcid]
  simp

/-- Claim C8 witness: typing-start then typing-stop from user 1 in room 4
reach user 2's connection 20 in that order. -/
theorem C8_witness :
    bufGet 20 w8Hub2.buffers = bufGet 20 w8Hub.buffers ++ [w8Start, w8Stop] :=
  @C8_same_room_ordering w8Hub w8Hub1 w8Hub2 w8Start w8Stop w8Room rfl rfl rfl rfl
    (by decide) rfl rfl 2 [20] (by decide) (by decide) (by decide) 20 (by decide)

/-- Claim C9: `IsUserOnline` is true exactly when the user's by-user entry
exists and is nonempty, and `GetConnectionCount` is the sum of the
connection-set sizes over all user entries. -/
theorem C9_isUserOnline_connectionCount (h : Hub) (u : UserId) :
    (IsUserOnline h u = true ↔ ∃ conns, alGet u h.clients = some conns ∧ conns ≠ []) ∧
    GetConnectionCount h = (h.clients.map (fun e => e.2.length)).sum := by
  constructor
  · rw [IsUserOnline]
    cases hget : alGet u h.clients with
    | none => simp
    | some conns => simp [List.isEmpty_iff]
  · rw [GetConnectionCount]
    have hfold := foldl_add_length h.clients 0
    simpa using hfold

/-- Claim C10: register mutates only the by-user index (the by-room index
and the room tracking sets are untouched — a freshly registered
connection belongs to no room), while joining a room leaves the by-user
index, every other room entry and every other connection's tracking set
unchanged. -/
theorem C10_register_join_frame (h : Hub) (c : WSClient) (r : RoomId) :
    (registerClient h c).chatRooms = h.chatRooms ∧
    (registerClient h c).connRooms = h.connRooms ∧
    (JoinChatRoom h c r).clients = h.clients ∧
    (∀ r', r' ≠ r → alGet r' (JoinChatRoom h c r).chatRooms = alGet r' h.chatRooms) ∧
    (∀ cid, cid ≠ c.id → alGet cid (JoinChatRoom h c r).connRooms = alGet cid h.connRooms) := by
  refine ⟨rfl, rfl, rfl, ?_, ?_⟩
  · intro r' hr
    rw [JoinChatRoom_chatRooms, alGet_alSet_ne hr]
  · intro cid hc
    rw [JoinChatRoom_connRooms, alGet_alSet_ne hc]

/-- Claim C10 witness: on a concrete hub, registering leaves the by-room
index unchanged and joining room 6 leaves room 7's entry unchanged. -/
theorem C10_witness :
    (registerClient w10Hub w10Client).chatRooms = w10Hub.chatRooms ∧
    alGet 7 (JoinChatRoom w10Hub w10Client 6).chatRooms = alGet 7 w10Hub.chatRooms := by
  have hfr := C10_register_join_frame w10Hub w10Client 6
  exact ⟨hfr.1, hfr.2.2.2.1 7 (by decide)⟩

end ChatHub
